import Mathlib

/-!
Verification of the meal-aggregation API (`main.py`).

Strings are modelled as `List Char`.  The external lookup service and the
database are modelled by explicit inputs (an `ExtResult` value for the
outcome of the outbound HTTP call, a list of `PersistedMeal` rows for the
table, `Option` wrapping for a database failure).  Randomness
(`random.sample`, `random.shuffle`) is modelled by an entropy stream
`sel : Nat → Nat`: the sampler removes, at each step, the element whose
index is `sel k` reduced modulo the number of remaining elements, so every
possible draw corresponds to some stream and every theorem quantifies over
all streams.
-/

namespace MealApi

/-- The apostrophe character (written by code to avoid literal quoting issues). -/
def apos : Char := Char.ofNat 39

/-- The backslash character, the default `LIKE` escape character in PostgreSQL. -/
def bsl : Char := Char.ofNat 92

/-- Lowercasing of a string, modelling SQL `LOWER` on ASCII data. -/
def lowerL (s : List Char) : List Char := s.map Char.toLower

/-- Predicate `leadsWith q s`: true when `q` is an initial segment of `s`. -/
def leadsWith : List Char → List Char → Bool
  | [], _ => true
  | _ :: _, [] => false
  | c :: q, d :: s => c == d && leadsWith q s

/-- Predicate `occursIn q s`: true when `q` occurs contiguously somewhere inside `s`. -/
def occursIn (q : List Char) : List Char → Bool
  | [] => leadsWith q []
  | c :: s => leadsWith q (c :: s) || occursIn q s

/-- PostgreSQL `LIKE` pattern matching: `%` matches any (possibly empty)
substring (the pattern remainder must match some suffix of the string),
`_` matches exactly one character, a backslash escapes the following
pattern character; every other character matches itself.  This is the
semantics of the `LOWER(name) LIKE LOWER($2)` filter in `get_meal`
(src/main.py line 107). -/
def likeMatch : List Char → List Char → Bool
  | [], s => s.isEmpty
  | p :: ps, s =>
    if p = '%' then s.tails.any (fun t => likeMatch ps t)
    else if p = bsl then
      match ps, s with
      | p2 :: ps2, c :: s2 => (p2 == c) && likeMatch ps2 s2
      | _, _ => false
    else if p = '_' then
      match s with
      | [] => false
      | _ :: s2 => likeMatch ps s2
    else
      match s with
      | [] => false
      | c :: s2 => (p == c) && likeMatch ps s2

/-- A pattern character that is not a `LIKE` metacharacter. -/
def cleanChar (c : Char) : Bool := !(c == '%') && !(c == '_') && !(c == bsl)

/-- Worker for `splitSep`, structurally recursive on a fuel bound that
dominates the string length (each step consumes at least one character,
so the zero-fuel arm for a non-empty string is never reached from
`splitSep`; `splitSepGo_fuel` below shows the result does not depend on
the bound). -/
def splitSepGo (sc : Char) (sep : List Char) : Nat → List Char → List (List Char)
  | _, [] => [[]]
  | 0, c :: s => [c :: s]
  | n + 1, c :: s =>
    if sc = c ∧ leadsWith sep s then
      [] :: splitSepGo sc sep n (s.drop sep.length)
    else
      match splitSepGo sc sep n s with
      | [] => [[c]]
      | h :: t => (c :: h) :: t

/-- Splitting a string on the (non-empty) separator `sc :: sep`, with
Python `str.split` semantics: leftmost non-overlapping matches, an input
with no separator occurrence yields the one-element list of the input
(in particular the empty string yields `[[]]`). -/
def splitSep (sc : Char) (sep : List Char) (s : List Char) : List (List Char) :=
  splitSepGo sc sep s.length s

/-- Python `str.strip(chars)`: remove every leading and every trailing
character belonging to the set `cs`. -/
def pyStrip (cs : List Char) (s : List Char) : List Char :=
  ((s.dropWhile (fun c => cs.contains c)).reverse.dropWhile
    (fun c => cs.contains c)).reverse

/-- Translation of the source's ingredients parsing
(src/main.py line 122): `s.strip("[]").replace(apostrophe, "").split(", ")`. -/
def parseIngredients (s : List Char) : List (List Char) :=
  splitSep ',' [' '] ((pyStrip ['[', ']'] s).filter (fun c => c ≠ apos))

/-- Translation of the source's instructions splitting
(src/main.py line 120): `s.split(sep)` where `sep` is
apostrophe-comma-space-apostrophe. -/
def splitInstructions (s : List Char) : List (List Char) :=
  splitSep apos [',', ' ', apos] s

/-- An external-source record: a JSON object, modelled as an ordered
association list from field names to field values. -/
abbrev ExtDict := List (List Char × List Char)

/-- First-match lookup in an association list (Python dict access). -/
def dictLookup (k : List Char) : ExtDict → Option (List Char)
  | [] => none
  | p :: d => if p.fst = k then some p.snd else dictLookup k d

/-- Python `{**meal, key: v}`: if `key` is already present its value is
replaced in place, otherwise the pair is appended at the end; all other
entries keep their name, value and position. -/
def dictSet (d : ExtDict) (k v : List Char) : ExtDict :=
  if d.any (fun p => p.fst = k) then
    d.map (fun p => if p.fst = k then (k, v) else p)
  else d ++ [(k, v)]

/-- The `source` field name. -/
def sourceKey : List Char := "source".toList

/-- The origin tag added by the external-source client. -/
def mealDBTag : List Char := "MealDB".toList

/-- The origin tag added to local rows. -/
def supabaseTag : List Char := "Supabase DB".toList

/-- Outcome of the outbound HTTP call in `fetch_mealdb_data`:
either some exception (network error, non-success status raised by
`raise_for_status`, malformed body) or a parsed body whose `meals`
field is `null` or a list of records. -/
inductive ExtResult where
  | failure : ExtResult
  | success : Option (List ExtDict) → ExtResult

/-- Translation of `fetch_mealdb_data` (src/main.py lines 72-83): on any
exception return `[]`; on success, if `data["meals"]` is falsy (null or
empty) return `[]`, else tag every record with `source = "MealDB"`. -/
def fetch_mealdb_data : ExtResult → List ExtDict
  | .failure => []
  | .success none => []
  | .success (some ms) =>
    if ms.isEmpty then [] else ms.map (fun m => dictSet m sourceKey mealDBTag)

/-- A row of the `extra_meals` table.  The `instructions` and
`ingredients` columns are nullable (`Option`); `none` models SQL NULL,
which asyncpg delivers as Python `None`. -/
structure PersistedMeal where
  id : Nat
  name : List Char
  category : List Char
  area : List Char
  instructions : Option (List Char)
  ingredients : Option (List Char)
  images : List Char
deriving DecidableEq

/-- The SQL query of `get_meal` (src/main.py lines 103-109): keep the rows
whose lowercased name matches `LIKE` pattern `'%' ++ query ++ '%'`
(the whole pattern lowercased, as `LOWER($2)` does), and order by the
computed `match_priority` (1 for a case-insensitive exact name match,
2 otherwise), modelled as a stable partition: exact matches first,
original relative order kept within each group. -/
def localFetch (table : List PersistedMeal) (q : List Char) : List PersistedMeal :=
  let pat := lowerL ('%' :: (q ++ ['%']))
  let matched := table.filter (fun r => likeMatch pat (lowerL r.name))
  matched.filter (fun r => lowerL r.name == lowerL q) ++
    matched.filter (fun r => !(lowerL r.name == lowerL q))

/-- Modelled from the spec's words (for comparison with `localFetch`):
"select all columns from the meal table where the lowercase name contains
the lowercase query substring, ordered so that rows whose name matches
exactly (case-insensitive) sort before partial matches (stable otherwise)". -/
def specLocalFetch (table : List PersistedMeal) (q : List Char) : List PersistedMeal :=
  let matched := table.filter (fun r => occursIn (lowerL q) (lowerL r.name))
  matched.filter (fun r => lowerL r.name == lowerL q) ++
    matched.filter (fun r => !(lowerL r.name == lowerL q))

/-- The common record shape built from a database row
(src/main.py lines 115-124). -/
structure MealRecord where
  idMeal : Nat
  strMeal : List Char
  strCategory : List Char
  strArea : List Char
  strInstructions : List (List Char)
  strMealThumb : List Char
  strIngredients : List (List Char)
  source : List Char
deriving DecidableEq

/-- Translation of the row-formatting loop body (src/main.py lines
114-125).  `meal["instructions"].split(...)` raises on a NULL
instructions column (`None.split` is an `AttributeError`), which the
surrounding `try` turns into a 500; this is modelled by `none`.
`meal["ingredients"]` being falsy (NULL or the empty string) yields an
empty ingredient list. -/
def formatMeal (r : PersistedMeal) : Option MealRecord :=
  match r.instructions with
  | none => none
  | some instr => some {
      idMeal := r.id
      strMeal := r.name
      strCategory := r.category
      strArea := r.area
      strInstructions := splitInstructions instr
      strMealThumb := r.images
      strIngredients :=
        match r.ingredients with
        | none => []
        | some ing => if ing.isEmpty then [] else parseIngredients ing
      source := supabaseTag }

/-- Remove the element at index `i`, returning it and the remaining list. -/
def extractAt : List α → Nat → Option (α × List α)
  | [], _ => none
  | x :: xs, 0 => some (x, xs)
  | x :: xs, i + 1 =>
    match extractAt xs i with
    | none => none
    | some (y, ys) => some (y, x :: ys)

/-- Model of `random.sample(l, k)`: draw `k` elements without replacement,
the entropy stream `sel` deciding which remaining element each step takes.
`random.shuffle(l)` is `sampleR sel l.length l`. -/
def sampleR (sel : Nat → Nat) : Nat → List α → List α
  | 0, _ => []
  | _ + 1, [] => []
  | k + 1, x :: xs =>
    match extractAt (x :: xs) (sel (k + 1) % (x :: xs).length) with
    | none => []
    | some (y, ys) => y :: sampleR sel k ys

/-- Model of `random.shuffle`: a full-length draw without replacement. -/
def shuffleR (sel : Nat → Nat) (l : List α) : List α :=
  sampleR sel l.length l

/-- Translation of the balanced selection (src/main.py lines 136-162).
`maxR` is `MAX_RESULTS`; `E`, `L` are `mealdb_meals`, `supabase_meals`.
The Python truthiness tests `if mealdb_meals and supabase_meals` /
`if mealdb_meals` become non-emptiness tests. -/
def selectMeals (sel : Nat → Nat) (maxR : Nat) (E L : List α) : List α :=
  if !E.isEmpty && !L.isEmpty then
    let ep := min E.length (maxR / 2)
    let sp := maxR - ep
    let fromE := if ep < E.length then sampleR sel ep E else E
    let fromL := if sp < L.length then sampleR sel sp L else L
    fromE ++ fromL
  else
    let src := if !E.isEmpty then E else L
    if src.length > 0 then sampleR sel (min src.length maxR) src else []

/-- An element of the final merged list: either a tagged external record
or a formatted local record (the Python code mixes both dict shapes in
one list; the sum distinguishes the two shapes). -/
abbrev Item := ExtDict ⊕ MealRecord

/-- The success envelope of `GET /meals/{meal_name}`
(src/main.py lines 168-175). -/
structure MealResponse where
  total_available : Nat
  mealdb_count : Nat
  supabase_count : Nat
  returned_results : Nat
  max_results : Nat
  data : List Item
deriving DecidableEq

/-- Outcome of `GET /meals/{meal_name}`: HTTP 500 (database error during
fetch or row formatting), HTTP 404 (no meal found), or HTTP 200 with the
envelope. -/
inductive GetMealResult where
  | serverError : GetMealResult
  | notFound : GetMealResult
  | ok : MealResponse → GetMealResult
deriving DecidableEq

/-- The row-formatting loop of `get_meal` (src/main.py lines 113-125):
rows are formatted one by one; the first row whose formatting raises
aborts the whole loop (`none`), discarding any partial results. -/
def formatRows : List PersistedMeal → Option (List MealRecord)
  | [] => some []
  | r :: rs =>
    match formatMeal r, formatRows rs with
    | some m, some ms => some (m :: ms)
    | _, _ => none

/-- Translation of the `get_meal` handler (src/main.py lines 86-175).
`ext` is the outcome of the outbound call consumed by
`fetch_mealdb_data`; `dbRes` is `none` when the database work (query or
row formatting) raises, `some table` otherwise; `sel` and `ssel` are the
entropy streams of the sampling and of the final shuffle; `meal_name` is
the path parameter.  A row whose formatting raises (NULL instructions)
also yields the 500 outcome, via `formatRows`. -/
def get_meal (ext : ExtResult) (dbRes : Option (List PersistedMeal))
    (sel ssel : Nat → Nat) (meal_name : List Char) : GetMealResult :=
  let mealdb_meals := fetch_mealdb_data ext
  match dbRes with
  | none => .serverError
  | some table =>
    match formatRows (localFetch table meal_name) with
    | none => .serverError
    | some supabase_meals =>
      if mealdb_meals.isEmpty && supabase_meals.isEmpty then .notFound
      else
        let final := selectMeals sel 20
          (mealdb_meals.map Sum.inl) (supabase_meals.map Sum.inr)
        let shuffled := shuffleR ssel final
        .ok {
          total_available := mealdb_meals.length + supabase_meals.length
          mealdb_count := mealdb_meals.length
          supabase_count := supabase_meals.length
          returned_results := shuffled.length
          max_results := 20
          data := shuffled }

/-- Outcome of `POST /add_meal/`: the success acknowledgment (with its
message) or HTTP 500. -/
inductive AddMealResult where
  | success : List Char → AddMealResult
  | serverError : AddMealResult
deriving DecidableEq

/-- The fixed acknowledgment message of `add_meal`. -/
def addedMsg : List Char := "Meal added successfully".toList

/-- Model of `INSERT ... ON CONFLICT (name) DO NOTHING` against the unique `name`
constraint: if a row with the same name exists the table is unchanged,
otherwise the row is appended. -/
def insertMeal (table : List PersistedMeal) (r : PersistedMeal) :
    List PersistedMeal :=
  if table.any (fun x => x.name == r.name) then table else table ++ [r]

/-- Translation of the `add_meal` handler (src/main.py lines 178-190):
`dbRes` is `none` when the database work raises (HTTP 500), otherwise
the insert runs and the fixed success message is returned.  The result
pairs the table after the call with the HTTP outcome. -/
def add_meal (dbRes : Option (List PersistedMeal)) (r : PersistedMeal) :
    Option (List PersistedMeal) × AddMealResult :=
  match dbRes with
  | none => (none, .serverError)
  | some table => (some (insertMeal table r), .success addedMsg)

/-- Modelled from the spec's words of claim C8 (for comparison with
`parseIngredients`): strip one leading `[` character if present. -/
def stripOneLead (c : Char) : List Char → List Char
  | [] => []
  | x :: s => if x = c then s else x :: s

/-- Modelled from the spec's words of claim C8: strip one trailing
character if present. -/
def stripOneTrail (c : Char) (s : List Char) : List Char :=
  (stripOneLead c s.reverse).reverse

/-- Modelled from the spec's words of claim C8: "strips a leading `[` and
trailing `]`, removes apostrophe characters, and splits on `, `". -/
def claimIngredientsParse (s : List Char) : List (List Char) :=
  splitSep ',' [' ']
    ((stripOneTrail ']' (stripOneLead '[' s)).filter (fun c => c ≠ apos))

/-- Modelled from the spec's words of claim C9: split on "the literal
separator formed by an apostrophe-comma-apostrophe sequence" (three
characters, no space). -/
def claimInstructionsSplit (s : List Char) : List (List Char) :=
  splitSep apos [',', apos] s

/-! ### Helper lemmas -/

theorem cleanChar_spec {c : Char} (h : cleanChar c = true) :
    c ≠ '%' ∧ c ≠ '_' ∧ c ≠ bsl := by
  simp only [cleanChar, Bool.and_eq_true, Bool.not_eq_true', beq_eq_false_iff_ne] at h
  exact ⟨h.1.1, h.1.2, h.2⟩

theorem tails_any_isEmpty :
    ∀ s : List Char, s.tails.any (fun t => t.isEmpty) = true := by
  intro s
  induction s with
  | nil => rfl
  | cons c s ih => simp only [List.tails_cons, List.any_cons, ih, Bool.or_true]

theorem likeMatch_pct (s : List Char) : likeMatch ['%'] s = true := by
  unfold likeMatch
  rw [if_pos rfl]
  exact tails_any_isEmpty s

theorem likeMatch_clean_pct :
    ∀ q : List Char, q.all cleanChar = true →
      ∀ s : List Char, likeMatch (q ++ ['%']) s = leadsWith q s := by
  intro q
  induction q with
  | nil =>
    intro _ s
    rw [List.nil_append, likeMatch_pct s]
    rfl
  | cons a q ih =>
    intro hq s
    simp only [List.all_cons, Bool.and_eq_true] at hq
    obtain ⟨h1, h2, h3⟩ := cleanChar_spec hq.1
    rw [List.cons_append]
    unfold likeMatch
    rw [if_neg h1, if_neg h3, if_neg h2]
    cases s with
    | nil => rfl
    | cons c s =>
      dsimp only
      rw [ih hq.2 s]
      rfl

theorem tails_any_leadsWith (q : List Char) :
    ∀ s : List Char, s.tails.any (fun t => leadsWith q t) = occursIn q s := by
  intro s
  induction s with
  | nil => simp [occursIn]
  | cons c s ih =>
    simp only [List.tails_cons, List.any_cons, ih, occursIn]

theorem likeMatch_sandwich {q : List Char} (hq : q.all cleanChar = true)
    (s : List Char) : likeMatch ('%' :: (q ++ ['%'])) s = occursIn q s := by
  unfold likeMatch
  rw [if_pos rfl]
  have hf : (fun t => likeMatch (q ++ ['%']) t) = fun t => leadsWith q t :=
    funext (fun t => likeMatch_clean_pct q hq t)
  rw [hf, tails_any_leadsWith]

theorem splitSepGo_fuel (sc : Char) (sep : List Char) :
    ∀ (n : Nat) (s : List Char) (m : Nat), s.length ≤ n → s.length ≤ m →
      splitSepGo sc sep n s = splitSepGo sc sep m s := by
  intro n
  induction n with
  | zero =>
    intro s m h1 _
    have hs : s = [] := List.eq_nil_of_length_eq_zero (Nat.le_zero.1 h1)
    subst hs
    cases m <;> rfl
  | succ n ih =>
    intro s m h1 h2
    cases s with
    | nil => cases m <;> rfl
    | cons c s =>
      cases m with
      | zero => simp at h2
      | succ m' =>
        simp only [List.length_cons, Nat.add_le_add_iff_right] at h1 h2
        simp only [splitSepGo]
        by_cases hc : sc = c ∧ leadsWith sep s = true
        · rw [if_pos hc, if_pos hc,
            ih (s.drop sep.length) m' (by simp; omega) (by simp; omega)]
        · rw [if_neg hc, if_neg hc, ih s m' h1 h2]

theorem splitSep_cons (sc : Char) (sep : List Char) (c : Char) (s : List Char) :
    splitSep sc sep (c :: s) =
      if sc = c ∧ leadsWith sep s then
        [] :: splitSep sc sep (s.drop sep.length)
      else
        match splitSep sc sep s with
        | [] => [[c]]
        | h :: t => (c :: h) :: t := by
  show splitSepGo sc sep (c :: s).length (c :: s) = _
  rw [List.length_cons]
  simp only [splitSepGo]
  by_cases hc : sc = c ∧ leadsWith sep s = true
  · rw [if_pos hc, if_pos hc]
    rw [splitSepGo_fuel sc sep s.length (s.drop sep.length) (s.drop sep.length).length
      (by simp) (Nat.le_refl _)]
    rfl
  · rw [if_neg hc, if_neg hc]
    rfl

theorem splitSep_no_sep {sc : Char} {sep : List Char} :
    ∀ s : List Char, occursIn (sc :: sep) s = false → splitSep sc sep s = [s] := by
  intro s
  induction s with
  | nil => intro _; rfl
  | cons c s ih =>
    intro h
    simp only [occursIn, Bool.or_eq_false_iff] at h
    have hlead : ¬(sc = c ∧ leadsWith sep s = true) := by
      intro ⟨hc, hl⟩
      have := h.1
      simp [leadsWith, hc, hl] at this
    rw [splitSep_cons, if_neg hlead, ih h.2]

theorem formatRows_length :
    ∀ {l : List PersistedMeal} {l' : List MealRecord},
      formatRows l = some l' → l'.length = l.length := by
  intro l
  induction l with
  | nil => intro l' h; simp only [formatRows, Option.some.injEq] at h; simp [← h]
  | cons r rs ih =>
    intro l' h
    simp only [formatRows] at h
    cases hr : formatMeal r with
    | none => rw [hr] at h; simp at h
    | some m =>
      cases hrs : formatRows rs with
      | none => rw [hr, hrs] at h; simp at h
      | some ms =>
        rw [hr, hrs] at h
        simp only [Option.some.injEq] at h
        rw [← h]
        simp [ih hrs]

theorem formatRows_mem :
    ∀ {l : List PersistedMeal} {l' : List MealRecord},
      formatRows l = some l' → ∀ m ∈ l', ∃ r ∈ l, formatMeal r = some m := by
  intro l
  induction l with
  | nil => intro l' h; simp only [formatRows, Option.some.injEq] at h; simp [← h]
  | cons r rs ih =>
    intro l' h m hm
    simp only [formatRows] at h
    cases hr : formatMeal r with
    | none => rw [hr] at h; simp at h
    | some m0 =>
      cases hrs : formatRows rs with
      | none => rw [hr, hrs] at h; simp at h
      | some ms =>
        rw [hr, hrs] at h
        simp only [Option.some.injEq] at h
        rw [← h] at hm
        rcases List.mem_cons.1 hm with h1 | h1
        · exact ⟨r, List.mem_cons_self r rs, by rw [hr, h1]⟩
        · obtain ⟨r', hr', hfr'⟩ := ih hrs m h1
          exact ⟨r', List.mem_cons_of_mem r hr', hfr'⟩

theorem formatRows_none_of_mem :
    ∀ {l : List PersistedMeal} {r : PersistedMeal},
      r ∈ l → formatMeal r = none → formatRows l = none := by
  intro l
  induction l with
  | nil => intro r h; simp at h
  | cons a as ih =>
    intro r hmem hfr
    simp only [formatRows]
    rcases List.mem_cons.1 hmem with h1 | h1
    · rw [← h1, hfr]
    · rw [ih h1 hfr]
      cases formatMeal a <;> rfl

theorem extractAt_perm {α : Type} :
    ∀ {l : List α} {i : Nat} {y : α} {ys : List α},
      extractAt l i = some (y, ys) → l.Perm (y :: ys) := by
  intro l
  induction l with
  | nil => intro i y ys h; simp [extractAt] at h
  | cons x xs ih =>
    intro i y ys h
    cases i with
    | zero =>
      simp only [extractAt, Option.some.injEq, Prod.mk.injEq] at h
      rw [← h.1, ← h.2]
    | succ j =>
      simp only [extractAt] at h
      cases hx : extractAt xs j with
      | none => rw [hx] at h; simp at h
      | some p =>
        obtain ⟨z, zs⟩ := p
        rw [hx] at h
        simp only [Option.some.injEq, Prod.mk.injEq] at h
        rw [← h.1, ← h.2]
        exact ((ih hx).cons x).trans (List.Perm.swap z x zs)

theorem extractAt_some {α : Type} :
    ∀ {l : List α} {i : Nat}, i < l.length →
      ∃ y ys, extractAt l i = some (y, ys) := by
  intro l
  induction l with
  | nil => intro i h; simp at h
  | cons x xs ih =>
    intro i h
    cases i with
    | zero => exact ⟨x, xs, rfl⟩
    | succ j =>
      have : j < xs.length := by simpa using h
      obtain ⟨y, ys, hy⟩ := ih this
      exact ⟨y, x :: ys, by simp [extractAt, hy]⟩

theorem sampleR_length {α : Type} (sel : Nat → Nat) :
    ∀ (k : Nat) (l : List α), (sampleR sel k l).length = min k l.length := by
  intro k
  induction k with
  | zero => intro l; simp [sampleR]
  | succ n ih =>
    intro l
    cases l with
    | nil => simp [sampleR]
    | cons x xs =>
      have hlt : (sel (n + 1)) % (x :: xs).length < (x :: xs).length :=
        Nat.mod_lt _ (by simp)
      obtain ⟨y, ys, hy⟩ := extractAt_some hlt
      have hlen : (y :: ys).length = (x :: xs).length :=
        ((extractAt_perm hy).length_eq).symm
      simp only [List.length_cons] at hlen
      have hy2 : extractAt (x :: xs) (sel (n + 1) % (xs.length + 1)) =
          some (y, ys) := by simpa using hy
      simp only [sampleR, List.length_cons, hy2, ih ys]
      omega

theorem sampleR_subset {α : Type} (sel : Nat → Nat) :
    ∀ (k : Nat) (l : List α) (x : α), x ∈ sampleR sel k l → x ∈ l := by
  intro k
  induction k with
  | zero => intro l x h; simp [sampleR] at h
  | succ n ih =>
    intro l x h
    cases l with
    | nil => simp [sampleR] at h
    | cons a as =>
      simp only [sampleR] at h
      cases hy : extractAt (a :: as) (sel (n + 1) % (a :: as).length) with
      | none => rw [hy] at h; simp at h
      | some p =>
        obtain ⟨y, ys⟩ := p
        rw [hy] at h
        have hperm := extractAt_perm hy
        rcases List.mem_cons.1 h with h1 | h1
        · exact hperm.mem_iff.2 (by rw [h1]; exact List.mem_cons_self y ys)
        · exact hperm.mem_iff.2 (List.mem_cons_of_mem y (ih ys x h1))

theorem sampleR_perm {α : Type} (sel : Nat → Nat) :
    ∀ (k : Nat) (l : List α), l.length ≤ k → (sampleR sel k l).Perm l := by
  intro k
  induction k with
  | zero =>
    intro l h
    have : l = [] := List.length_eq_zero.1 (Nat.le_zero.1 h)
    simp [this, sampleR]
  | succ n ih =>
    intro l h
    cases l with
    | nil => simp [sampleR]
    | cons a as =>
      have hlt : (sel (n + 1)) % (a :: as).length < (a :: as).length :=
        Nat.mod_lt _ (by simp)
      obtain ⟨y, ys, hy⟩ := extractAt_some hlt
      have hperm := extractAt_perm hy
      have hlen : ys.length ≤ n := by
        have := hperm.length_eq
        simp only [List.length_cons] at this h
        omega
      simp only [sampleR, hy]
      exact ((ih ys hlen).cons y).trans hperm.symm

theorem shuffleR_perm {α : Type} (sel : Nat → Nat) (l : List α) :
    (shuffleR sel l).Perm l :=
  sampleR_perm sel l.length l (Nat.le_refl _)

theorem shuffleR_length {α : Type} (sel : Nat → Nat) (l : List α) :
    (shuffleR sel l).length = l.length :=
  (shuffleR_perm sel l).length_eq

theorem selectMeals_length_both {α : Type} (sel : Nat → Nat) (m : Nat)
    {E L : List α} (hE : E ≠ []) (hL : L ≠ []) :
    (selectMeals sel m E L).length =
      min E.length (m / 2) + min L.length (m - min E.length (m / 2)) := by
  have hE' : E.isEmpty = false := by simpa [List.isEmpty_iff] using hE
  have hL' : L.isEmpty = false := by simpa [List.isEmpty_iff] using hL
  simp only [selectMeals, hE', hL', Bool.not_false, Bool.and_self, if_true]
  set ep := min E.length (m / 2) with hep
  set sp := m - ep with hsp
  have h1 : (if ep < E.length then sampleR sel ep E else E).length = ep := by
    by_cases h : ep < E.length
    · simp [h, sampleR_length, Nat.min_eq_left (Nat.le_of_lt h)]
    · have : E.length ≤ ep := Nat.le_of_not_lt h
      have : E.length = ep := Nat.le_antisymm this (hep ▸ Nat.min_le_left _ _)
      simp [h, this]
  have h2 : (if sp < L.length then sampleR sel sp L else L).length =
      min L.length sp := by
    by_cases h : sp < L.length
    · simp [h, sampleR_length, Nat.min_eq_left (Nat.le_of_lt h),
        Nat.min_eq_right (Nat.le_of_lt h)]
    · simp [h, Nat.min_eq_left (Nat.le_of_not_lt h)]
  simp [List.length_append, h1, h2]

theorem selectMeals_length_right {α : Type} (sel : Nat → Nat) (m : Nat)
    {E L : List α} (hE : E = []) :
    (selectMeals sel m E L).length = min L.length m := by
  subst hE
  simp only [selectMeals, List.isEmpty_nil, Bool.not_true, Bool.false_and,
    Bool.false_eq_true, if_false]
  by_cases hL : L = []
  · subst hL; simp
  · have hpos : 0 < L.length := List.length_pos.2 hL
    simp only [gt_iff_lt, hpos, if_true, sampleR_length]
    omega

theorem selectMeals_length_left {α : Type} (sel : Nat → Nat) (m : Nat)
    {E L : List α} (hE : E ≠ []) (hL : L = []) :
    (selectMeals sel m E L).length = min E.length m := by
  subst hL
  have hE' : E.isEmpty = false := by
    simpa [List.isEmpty_iff] using hE
  simp only [selectMeals, hE', List.isEmpty_nil, Bool.not_false, Bool.not_true,
    Bool.and_false, Bool.false_eq_true, if_false, Bool.true_eq, if_true]
  have hpos : 0 < E.length := List.length_pos.2 hE
  simp only [gt_iff_lt, hpos, if_true, sampleR_length]
  omega

theorem selectMeals_subset {α : Type} (sel : Nat → Nat) (m : Nat)
    (E L : List α) (x : α) (h : x ∈ selectMeals sel m E L) : x ∈ E ∨ x ∈ L := by
  simp only [selectMeals] at h
  by_cases hc : (!E.isEmpty && !L.isEmpty) = true
  · rw [if_pos hc] at h
    rcases List.mem_append.1 h with h1 | h1
    · left
      by_cases hlt : min E.length (m / 2) < E.length
      · rw [if_pos hlt] at h1; exact sampleR_subset sel _ E x h1
      · rw [if_neg hlt] at h1; exact h1
    · right
      by_cases hlt : m - min E.length (m / 2) < L.length
      · rw [if_pos hlt] at h1; exact sampleR_subset sel _ L x h1
      · rw [if_neg hlt] at h1; exact h1
  · rw [if_neg hc] at h
    by_cases hlen : (if !E.isEmpty then E else L).length > 0
    · rw [if_pos hlen] at h
      have := sampleR_subset sel _ _ x h
      by_cases hE : E.isEmpty
      · rw [hE] at this; right; simpa using this
      · rw [Bool.not_eq_true] at hE
        rw [hE] at this; left; simpa using this
    · rw [if_neg hlen] at h
      simp at h

theorem dictLookup_map_self {k v : List Char} :
    ∀ d : ExtDict, d.any (fun p => p.fst = k) = true →
      dictLookup k (d.map (fun p => if p.fst = k then (k, v) else p)) = some v := by
  intro d
  induction d with
  | nil => intro h; simp at h
  | cons p d ih =>
    intro h
    by_cases hp : p.fst = k
    · rw [List.map_cons, if_pos hp, dictLookup, if_pos rfl]
    · rw [List.map_cons, if_neg hp, dictLookup, if_neg hp]
      apply ih
      simp only [List.any_cons, Bool.or_eq_true, decide_eq_true_eq] at h
      rcases h with h | h
      · exact absurd h hp
      · exact h

theorem dictLookup_append_self {k v : List Char} :
    ∀ d : ExtDict, d.any (fun p => p.fst = k) = false →
      dictLookup k (d ++ [(k, v)]) = some v := by
  intro d
  induction d with
  | nil => intro _; rw [List.nil_append, dictLookup, if_pos rfl]
  | cons p d ih =>
    intro h
    simp only [List.any_cons, Bool.or_eq_false_iff, decide_eq_false_iff_not] at h
    rw [List.cons_append, dictLookup, if_neg h.1]
    exact ih (by simpa using h.2)

theorem dictLookup_dictSet_self (k v : List Char) (d : ExtDict) :
    dictLookup k (dictSet d k v) = some v := by
  by_cases hany : d.any (fun p => p.fst = k) = true
  · rw [dictSet, if_pos hany]
    exact dictLookup_map_self d hany
  · rw [dictSet, if_neg hany]
    exact dictLookup_append_self d (Bool.not_eq_true _ ▸ hany)

theorem dictLookup_map_other {k k' v : List Char} (hne : k' ≠ k) :
    ∀ d : ExtDict,
      dictLookup k' (d.map (fun p => if p.fst = k then (k, v) else p)) =
        dictLookup k' d := by
  intro d
  induction d with
  | nil => simp [dictLookup]
  | cons p d ih =>
    by_cases hp : p.fst = k
    · rw [List.map_cons, if_pos hp, dictLookup, dictLookup,
        if_neg (fun h : (k, v).fst = k' => hne h.symm),
        if_neg (fun h : p.fst = k' => hne (hp.symm.trans h).symm), ih]
    · rw [List.map_cons, if_neg hp, dictLookup, dictLookup]
      by_cases hp' : p.fst = k'
      · rw [if_pos hp', if_pos hp']
      · rw [if_neg hp', if_neg hp', ih]

theorem dictLookup_append_other {k k' v : List Char} (hne : k' ≠ k) :
    ∀ d : ExtDict, dictLookup k' (d ++ [(k, v)]) = dictLookup k' d := by
  intro d
  induction d with
  | nil =>
    rw [List.nil_append, dictLookup, dictLookup,
      if_neg (fun h : (k, v).fst = k' => hne h.symm), dictLookup]
  | cons p d ih =>
    rw [List.cons_append, dictLookup, dictLookup]
    by_cases hp' : p.fst = k'
    · rw [if_pos hp', if_pos hp']
    · rw [if_neg hp', if_neg hp']
      exact ih

theorem dictLookup_dictSet_other {k k' : List Char} (v : List Char)
    (hne : k' ≠ k) (d : ExtDict) :
    dictLookup k' (dictSet d k v) = dictLookup k' d := by
  by_cases hany : d.any (fun p => p.fst = k) = true
  · simp only [dictSet, hany, if_true, dictLookup_map_other hne]
  · simp only [dictSet, hany, Bool.false_eq_true, if_false,
      dictLookup_append_other hne]

/-- Every record returned by the external-source client carries the
`MealDB` origin tag. -/
theorem fetch_tag {ext : ExtResult} {m : ExtDict}
    (h : m ∈ fetch_mealdb_data ext) : dictLookup sourceKey m = some mealDBTag := by
  cases ext with
  | failure => simp [fetch_mealdb_data] at h
  | success o =>
    cases o with
    | none => simp [fetch_mealdb_data] at h
    | some ms =>
      simp only [fetch_mealdb_data] at h
      by_cases he : ms.isEmpty
      · rw [if_pos he] at h; simp at h
      · rw [if_neg he] at h
        obtain ⟨m0, _, hm0⟩ := List.mem_map.1 h
        rw [← hm0]
        exact dictLookup_dictSet_self sourceKey mealDBTag m0

/-- Every formatted local row carries the `Supabase DB` origin tag. -/
theorem formatMeal_source {r : PersistedMeal} {m : MealRecord}
    (h : formatMeal r = some m) : m.source = supabaseTag := by
  cases hi : r.instructions with
  | none => simp [formatMeal, hi] at h
  | some instr =>
    simp only [formatMeal, hi, Option.some.injEq] at h
    rw [← h]

/-- Success-shape inversion for `get_meal`: when the database work
succeeds and at least one source is non-empty, the handler returns the
envelope built from the shuffled balanced selection. -/
theorem get_meal_eq_ok (ext : ExtResult) (db : List PersistedMeal)
    (sel ssel : Nat → Nat) (q : List Char) {L : List MealRecord}
    (hL : formatRows (localFetch db q) = some L)
    (hne : fetch_mealdb_data ext ≠ [] ∨ L ≠ []) :
    get_meal ext (some db) sel ssel q =
      .ok {
        total_available := (fetch_mealdb_data ext).length + L.length
        mealdb_count := (fetch_mealdb_data ext).length
        supabase_count := L.length
        returned_results := (shuffleR ssel (selectMeals sel 20
          ((fetch_mealdb_data ext).map Sum.inl) (L.map Sum.inr))).length
        max_results := 20
        data := shuffleR ssel (selectMeals sel 20
          ((fetch_mealdb_data ext).map Sum.inl) (L.map Sum.inr)) } := by
  have hcond : ((fetch_mealdb_data ext).isEmpty && L.isEmpty) ≠ true := by
    intro hc
    rw [Bool.and_eq_true, List.isEmpty_iff, List.isEmpty_iff] at hc
    rcases hne with h | h
    · exact h hc.1
    · exact h hc.2
  unfold get_meal
  dsimp only
  rw [hL]
  dsimp only
  rw [if_neg hcond]

/-- Inversion for `get_meal`: a success outcome determines the formatted
local list and the envelope. -/
theorem get_meal_ok_inv {ext : ExtResult} {db : List PersistedMeal}
    {sel ssel : Nat → Nat} {q : List Char} {r : MealResponse}
    (h : get_meal ext (some db) sel ssel q = .ok r) :
    ∃ L, formatRows (localFetch db q) = some L ∧
      ¬((fetch_mealdb_data ext).isEmpty && L.isEmpty) = true ∧
      r = {
        total_available := (fetch_mealdb_data ext).length + L.length
        mealdb_count := (fetch_mealdb_data ext).length
        supabase_count := L.length
        returned_results := (shuffleR ssel (selectMeals sel 20
          ((fetch_mealdb_data ext).map Sum.inl) (L.map Sum.inr))).length
        max_results := 20
        data := shuffleR ssel (selectMeals sel 20
          ((fetch_mealdb_data ext).map Sum.inl) (L.map Sum.inr)) } := by
  simp only [get_meal] at h
  cases hF : formatRows (localFetch db q) with
  | none => rw [hF] at h; simp at h
  | some L =>
    rw [hF] at h
    dsimp only at h
    by_cases hc : ((fetch_mealdb_data ext).isEmpty && L.isEmpty) = true
    · rw [if_pos hc] at h; simp at h
    · rw [if_neg hc] at h
      simp only [GetMealResult.ok.injEq] at h
      exact ⟨L, rfl, hc, h.symm⟩

/-! ### Concrete sample values used by witnesses -/

/-- A constant entropy stream. -/
def sel0 : Nat → Nat := fun _ => 0

/-- A sample stored row with empty name and empty (non-NULL) text fields. -/
def row0 : PersistedMeal := ⟨1, [], [], [], some [], some [], []⟩

/-- The formatted shape of `row0`. -/
def rec0 : MealRecord := ⟨1, [], [], [], [[]], [], [], supabaseTag⟩

/-- An external-call outcome delivering one (empty) record. -/
def extOne : ExtResult := .success (some [[]])

/-- The tagged shape of the one record of `extOne`. -/
def dtag : ExtDict := [(sourceKey, mealDBTag)]

/-! ### Claim theorems -/

/-- C1: for `GET /meals/{meal_name}` with cap `MAX = 20`, whenever the
external list `E` and the local list `L` are both non-empty, the balancer
takes `e_take = min(|E|, MAX // 2)` from `E` and `l_take = MAX - e_take`
from `L`, each draw without replacement (all of a side when it is not
larger than its share), concatenating without backfilling; hence
`returned_results = min(|E|, 10) + min(|L|, 20 - min(|E|, 10))`. -/
theorem C1_balancer_both_sources (ext : ExtResult) (db : List PersistedMeal)
    (sel ssel : Nat → Nat) (q : List Char) {L : List MealRecord}
    (hL : formatRows (localFetch db q) = some L)
    (hE : fetch_mealdb_data ext ≠ []) (hL0 : L ≠ []) :
    ∃ r, get_meal ext (some db) sel ssel q = .ok r ∧
      r.returned_results =
        min (fetch_mealdb_data ext).length 10 +
          min L.length (20 - min (fetch_mealdb_data ext).length 10) := by
  refine ⟨_, get_meal_eq_ok ext db sel ssel q hL (Or.inl hE), ?_⟩
  have hE' : (fetch_mealdb_data ext).map Sum.inl ≠ ([] : List Item) := by
    simpa using hE
  have hL' : L.map Sum.inr ≠ ([] : List Item) := by simpa using hL0
  show (shuffleR ssel (selectMeals sel 20 _ _)).length = _
  rw [shuffleR_length, selectMeals_length_both sel 20 hE' hL']
  simp only [List.length_map]

/-- Witness for C1 at a concrete input: one external record, one matching
local row. -/
theorem C1_balancer_both_sources_witness :
    formatRows (localFetch [row0] []) = some [rec0] ∧
    fetch_mealdb_data extOne ≠ [] ∧ ([rec0] : List MealRecord) ≠ [] ∧
    ∃ r, get_meal extOne (some [row0]) sel0 sel0 [] = .ok r ∧
      r.returned_results =
        min (fetch_mealdb_data extOne).length 10 +
          min ([rec0] : List MealRecord).length
            (20 - min (fetch_mealdb_data extOne).length 10) :=
  ⟨by decide, by decide, by decide,
    C1_balancer_both_sources extOne [row0] sel0 sel0 [] (by decide)
      (by decide) (by decide)⟩

/-- C2: every success envelope of `GET /meals/{meal_name}` satisfies
`returned_results ≤ MAX = 20` and `returned_results ≤ |E| + |L|` (the
latter being `total_available`). -/
theorem C2_result_caps (ext : ExtResult) (db : List PersistedMeal)
    (sel ssel : Nat → Nat) (q : List Char) (r : MealResponse)
    (h : get_meal ext (some db) sel ssel q = .ok r) :
    r.returned_results ≤ 20 ∧
      r.returned_results ≤ r.total_available ∧
      r.total_available =
        (fetch_mealdb_data ext).length + (localFetch db q).length := by
  obtain ⟨L, hL, hc, hr⟩ := get_meal_ok_inv h
  subst hr
  dsimp only
  have hlen : L.length = (localFetch db q).length := formatRows_length hL
  rw [shuffleR_length]
  by_cases hE : fetch_mealdb_data ext = []
  · rw [selectMeals_length_right sel 20 (by simp [hE])]
    simp only [List.length_map]
    omega
  · by_cases hLe : L = []
    · rw [selectMeals_length_left sel 20 (by simpa using hE) (by simp [hLe])]
      simp only [List.length_map]
      omega
    · rw [selectMeals_length_both sel 20
        (show (fetch_mealdb_data ext).map Sum.inl ≠ ([] : List Item) by simpa using hE)
        (show L.map Sum.inr ≠ ([] : List Item) by simpa using hLe)]
      simp only [List.length_map]
      omega

/-- The success envelope of the witness runs: both sources holding one
record each, drawn in full and shuffled by the constant stream. -/
def respBoth : MealResponse := ⟨2, 1, 1, 2, 20, [Sum.inl dtag, Sum.inr rec0]⟩

/-- Witness for C2 at a concrete input. -/
theorem C2_result_caps_witness :
    get_meal extOne (some [row0]) sel0 sel0 [] = .ok respBoth ∧
    (respBoth.returned_results ≤ 20 ∧
      respBoth.returned_results ≤ respBoth.total_available ∧
      respBoth.total_available =
        (fetch_mealdb_data extOne).length + (localFetch [row0] []).length) :=
  ⟨by decide, C2_result_caps extOne [row0] sel0 sel0 [] respBoth (by decide)⟩

/-- C3: `GET /meals/{meal_name}` yields the 404 outcome exactly when the
external source and the local store both yield zero records (the
database work having succeeded); no envelope is produced then, the
`notFound` outcome carrying none. -/
theorem C3_notFound_iff (ext : ExtResult) (db : List PersistedMeal)
    (sel ssel : Nat → Nat) (q : List Char) :
    get_meal ext (some db) sel ssel q = .notFound ↔
      fetch_mealdb_data ext = [] ∧ localFetch db q = [] := by
  constructor
  · intro h
    simp only [get_meal] at h
    cases hF : formatRows (localFetch db q) with
    | none => rw [hF] at h; simp at h
    | some L =>
      rw [hF] at h
      dsimp only at h
      by_cases hc : ((fetch_mealdb_data ext).isEmpty && L.isEmpty) = true
      · rw [Bool.and_eq_true, List.isEmpty_iff, List.isEmpty_iff] at hc
        refine ⟨hc.1, ?_⟩
        have hlen := formatRows_length hF
        rw [hc.2] at hlen
        exact List.eq_nil_of_length_eq_zero (by simpa using hlen.symm)
      · rw [if_neg hc] at h
        simp at h
  · rintro ⟨h1, h2⟩
    unfold get_meal
    dsimp only
    rw [h2, h1]
    rfl

/-- Witness for C3 at a concrete input (both directions are closed by
instantiation; the backward direction is applied). -/
theorem C3_notFound_iff_witness :
    get_meal .failure (some []) sel0 sel0 [] = .notFound :=
  (C3_notFound_iff .failure [] sel0 sel0 []).mpr ⟨rfl, rfl⟩

/-- C4: when exactly one source is non-empty, the handler returns
`min(|side|, MAX)` records, all drawn from that side and all carrying
that side's origin tag (`source = "MealDB"` for external records,
`source = "Supabase DB"` for local rows). -/
theorem C4_single_source (ext : ExtResult) (db : List PersistedMeal)
    (sel ssel : Nat → Nat) (q : List Char) (r : MealResponse)
    (h : get_meal ext (some db) sel ssel q = .ok r) :
    ((fetch_mealdb_data ext ≠ [] ∧ localFetch db q = []) →
      r.returned_results = min (fetch_mealdb_data ext).length 20 ∧
        ∀ it ∈ r.data, ∃ d, it = Sum.inl d ∧
          dictLookup sourceKey d = some mealDBTag) ∧
    ((fetch_mealdb_data ext = [] ∧ localFetch db q ≠ []) →
      r.returned_results = min (localFetch db q).length 20 ∧
        ∀ it ∈ r.data, ∃ m, it = Sum.inr m ∧ m.source = supabaseTag) := by
  obtain ⟨L, hL, hc, hr⟩ := get_meal_ok_inv h
  subst hr
  dsimp only
  have hlen : L.length = (localFetch db q).length := formatRows_length hL
  constructor
  · rintro ⟨hE, hrows⟩
    have hLnil : L = [] := by
      rw [hrows] at hlen
      exact List.eq_nil_of_length_eq_zero (by simpa using hlen)
    subst hLnil
    constructor
    · rw [shuffleR_length,
        selectMeals_length_left sel 20
          (show (fetch_mealdb_data ext).map Sum.inl ≠ ([] : List Item) by
            simpa using hE) (by simp)]
      simp [List.length_map]
    · intro it hit
      have h1 := (shuffleR_perm ssel _).mem_iff.1 hit
      have h2 := selectMeals_subset sel 20 _ _ it h1
      rcases h2 with h2 | h2
      · obtain ⟨d, hd, hdi⟩ := List.mem_map.1 h2
        exact ⟨d, hdi.symm, fetch_tag hd⟩
      · simp at h2
  · rintro ⟨hE, hrows⟩
    constructor
    · rw [shuffleR_length, selectMeals_length_right sel 20 (by simp [hE])]
      simp [List.length_map, hlen]
    · intro it hit
      have h1 := (shuffleR_perm ssel _).mem_iff.1 hit
      have h2 := selectMeals_subset sel 20 _ _ it h1
      rcases h2 with h2 | h2
      · rw [hE] at h2; simp at h2
      · obtain ⟨m, hm, hmi⟩ := List.mem_map.1 h2
        obtain ⟨rr, _, hfr⟩ := formatRows_mem hL m hm
        exact ⟨m, hmi.symm, formatMeal_source hfr⟩

/-- The success envelope of the external-only witness run. -/
def respExt : MealResponse := ⟨1, 1, 0, 1, 20, [Sum.inl dtag]⟩

/-- Witness for C4 at a concrete input: only the external side non-empty. -/
theorem C4_single_source_witness :
    get_meal extOne (some []) sel0 sel0 [] = .ok respExt ∧
    (fetch_mealdb_data extOne ≠ [] ∧ localFetch [] [] = []) ∧
    (respExt.returned_results = min (fetch_mealdb_data extOne).length 20 ∧
      ∀ it ∈ respExt.data, ∃ d, it = Sum.inl d ∧
        dictLookup sourceKey d = some mealDBTag) :=
  ⟨by decide, ⟨by decide, rfl⟩,
    (C4_single_source extOne [] sel0 sel0 [] respExt (by decide)).1
      ⟨by decide, rfl⟩⟩

/-- C5: the external-source client is total (it returns a plain list, never
propagating an exception): any failure and a null `meals` field and an
empty `meals` list all yield `[]`; a non-empty `meals` list is returned
record for record, each with `source = "MealDB"` set and every other
field name and value unchanged. -/
theorem C5_external_client :
    fetch_mealdb_data .failure = [] ∧
    fetch_mealdb_data (.success none) = [] ∧
    fetch_mealdb_data (.success (some [])) = [] ∧
    (∀ ms : List ExtDict, ms ≠ [] →
      fetch_mealdb_data (.success (some ms)) =
        ms.map (fun m => dictSet m sourceKey mealDBTag)) ∧
    (∀ m0 : ExtDict,
      dictLookup sourceKey (dictSet m0 sourceKey mealDBTag) = some mealDBTag) ∧
    (∀ (m0 : ExtDict) (k : List Char), k ≠ sourceKey →
      dictLookup k (dictSet m0 sourceKey mealDBTag) = dictLookup k m0) := by
  refine ⟨rfl, rfl, rfl, ?_, ?_, ?_⟩
  · intro ms hms
    simp only [fetch_mealdb_data]
    rw [if_neg (by simpa [List.isEmpty_iff] using hms)]
  · intro m0
    exact dictLookup_dictSet_self _ _ _
  · intro m0 k hk
    exact dictLookup_dictSet_other _ hk _

/-- A sample untagged external record. -/
def extDict0 : ExtDict := [("name".toList, "x".toList)]

/-- Witness for C5 at a concrete record. -/
theorem C5_external_client_witness :
    (([extDict0] : List ExtDict) ≠ []) ∧
    fetch_mealdb_data (.success (some [extDict0])) =
      [dictSet extDict0 sourceKey mealDBTag] ∧
    ("name".toList ≠ sourceKey) ∧
    dictLookup "name".toList (dictSet extDict0 sourceKey mealDBTag) =
      dictLookup "name".toList extDict0 :=
  ⟨by decide, C5_external_client.2.2.2.1 [extDict0] (by decide), by decide,
    C5_external_client.2.2.2.2.2 extDict0 "name".toList (by decide)⟩

/-- C6: `POST /add_meal/` acknowledges with the same fixed success message
whether or not the row already existed (a duplicate name leaves the table
unchanged — no second row), and a database failure yields the 500
outcome. -/
theorem C6_add_meal_dedup :
    (∀ (db : List PersistedMeal) (r : PersistedMeal),
      (add_meal (some db) r).snd = .success addedMsg) ∧
    (∀ (db : List PersistedMeal) (r : PersistedMeal),
      (∃ x ∈ db, x.name = r.name) →
        add_meal (some db) r = (some db, .success addedMsg)) ∧
    (∀ r : PersistedMeal, add_meal none r = (none, .serverError)) := by
  refine ⟨fun db r => rfl, ?_, fun r => rfl⟩
  rintro db r ⟨x, hx, hname⟩
  simp only [add_meal, insertMeal]
  rw [if_pos (List.any_eq_true.2 ⟨x, hx, by simp [hname]⟩)]

/-- A second sample row sharing `row0`'s name. -/
def row1same : PersistedMeal := ⟨2, [], [], [], none, none, []⟩

/-- Witness for C6: inserting a duplicate of `row0`. -/
theorem C6_add_meal_dedup_witness :
    (∃ x ∈ [row0], x.name = row1same.name) ∧
    add_meal (some [row0]) row1same = (some [row0], .success addedMsg) :=
  ⟨⟨row0, by decide, rfl⟩,
    C6_add_meal_dedup.2.1 [row0] row1same ⟨row0, by decide, rfl⟩⟩

/-- A sample stored row named `axb`. -/
def rowAxb : PersistedMeal := ⟨1, "axb".toList, [], [], some [], some [], []⟩

/-- Counterexample to C7: the `WHERE LOWER(name) LIKE LOWER('%'||q||'%')`
filter is not plain substring containment for every query string — the
query `a_b` (underscore is a `LIKE` single-character wildcard) matches the
stored name `axb` although `a_b` is not a substring of `axb`. -/
theorem C7_counterexample :
    localFetch [rowAxb] ['a', '_', 'b'] ≠ specLocalFetch [rowAxb] ['a', '_', 'b'] ∧
    localFetch [rowAxb] ['a', '_', 'b'] = [rowAxb] ∧
    specLocalFetch [rowAxb] ['a', '_', 'b'] = [] := by decide

/-- C7 (amended): for every query string free of `LIKE` metacharacters
(`%`, `_`, backslash) after lowercasing, the local store fetch returns
exactly the rows whose lowercase name contains the lowercase query as a
substring, case-insensitively exact name matches first, the order stable
otherwise. -/
theorem C7_clean_query (table : List PersistedMeal) (q : List Char)
    (hq : (lowerL q).all cleanChar = true) :
    localFetch table q = specLocalFetch table q := by
  simp only [localFetch, specLocalFetch]
  have h5 : Char.toLower '%' = '%' := rfl
  have hpat : lowerL ('%' :: (q ++ ['%'])) = '%' :: (lowerL q ++ ['%']) := by
    simp [lowerL, List.map_append, h5]
  rw [hpat]
  have hfun : (fun r : PersistedMeal =>
      likeMatch ('%' :: (lowerL q ++ ['%'])) (lowerL r.name)) =
      fun r => occursIn (lowerL q) (lowerL r.name) :=
    funext fun r => likeMatch_sandwich hq (lowerL r.name)
  rw [hfun]

/-- Witness for the amended C7 at a concrete clean query. -/
theorem C7_clean_query_witness :
    (lowerL "Ab".toList).all cleanChar = true ∧
    localFetch [rowAxb] "Ab".toList = specLocalFetch [rowAxb] "Ab".toList :=
  ⟨by decide, C7_clean_query [rowAxb] "Ab".toList (by decide)⟩

/-- The ingredients string of the spec's example,
`['egg', 'flour']` with literal apostrophes. -/
def exIngr : List Char :=
  ['['] ++ [apos] ++ "egg".toList ++ [apos] ++ [',', ' '] ++ [apos] ++
    "flour".toList ++ [apos] ++ [']']

/-- An ingredients string with doubled brackets. -/
def cexIngr : List Char := "[[egg]]".toList

/-- Counterexample to C8: the code's `strip("[]")` removes every leading
and trailing bracket character, not one leading `[` and one trailing `]`:
on `[[egg]]` the code yields `["egg"]` while the claim's literal
description yields `["[egg]"]`. -/
theorem C8_counterexample :
    parseIngredients cexIngr ≠ claimIngredientsParse cexIngr ∧
    parseIngredients cexIngr = ["egg".toList] ∧
    claimIngredientsParse cexIngr = ["[egg]".toList] := by decide

/-- C8 (amended): parsing a stored ingredients string strips all leading
and trailing square-bracket characters, removes apostrophes, and splits
on comma-space: `['egg', 'flour']` yields `["egg", "flour"]`, and a NULL
or empty ingredients field yields the empty list. -/
theorem C8_ingredient_parsing :
    parseIngredients exIngr = ["egg".toList, "flour".toList] ∧
    (∀ (r : PersistedMeal) (i : List Char) (m : MealRecord),
      r.instructions = some i → r.ingredients = none →
      formatMeal r = some m → m.strIngredients = []) ∧
    (∀ (r : PersistedMeal) (i : List Char) (m : MealRecord),
      r.instructions = some i → r.ingredients = some [] →
      formatMeal r = some m → m.strIngredients = []) := by
  refine ⟨by decide, ?_, ?_⟩
  · intro r i m hi hing hm
    simp only [formatMeal, hi, hing, Option.some.injEq] at hm
    rw [← hm]
  · intro r i m hi hing hm
    simp only [formatMeal, hi, hing, Option.some.injEq] at hm
    rw [← hm]
    rfl

/-- A sample row with NULL ingredients. -/
def rowNoneIngr : PersistedMeal := ⟨3, [], [], [], some [], none, []⟩

/-- The formatted shape of `rowNoneIngr`. -/
def recNoneIngr : MealRecord := ⟨3, [], [], [], [[]], [], [], supabaseTag⟩

/-- Witness for the amended C8 at a concrete row with NULL ingredients. -/
theorem C8_ingredient_parsing_witness :
    (rowNoneIngr.instructions = some [] ∧ rowNoneIngr.ingredients = none ∧
      formatMeal rowNoneIngr = some recNoneIngr) ∧
    recNoneIngr.strIngredients = [] :=
  ⟨⟨rfl, rfl, by decide⟩,
    C8_ingredient_parsing.2.1 rowNoneIngr [] recNoneIngr rfl rfl (by decide)⟩

/-- The instructions string of the spec's example, `Step1', 'Step2`. -/
def exInstr : List Char :=
  "Step1".toList ++ [apos] ++ [',', ' '] ++ [apos] ++ "Step2".toList

/-- An instructions string with an apostrophe-comma-apostrophe sequence
but no space. -/
def cexInstr : List Char := "a".toList ++ [apos] ++ [','] ++ [apos] ++ "b".toList

/-- Counterexample to C9: the code splits on the four-character separator
apostrophe-comma-space-apostrophe, not on the three-character
apostrophe-comma-apostrophe sequence the claim describes; the two
disagree on `a','b`, and the claim's own example fails under its literal
separator. -/
theorem C9_counterexample :
    splitInstructions cexInstr ≠ claimInstructionsSplit cexInstr ∧
    claimInstructionsSplit cexInstr = ["a".toList, "b".toList] ∧
    splitInstructions cexInstr = [cexInstr] ∧
    claimInstructionsSplit exInstr ≠ ["Step1".toList, "Step2".toList] := by
  decide

/-- C9 (amended): reading a stored row splits its instructions string on
the literal apostrophe-comma-space-apostrophe separator into an ordered
list of steps; `Step1', 'Step2` yields `["Step1", "Step2"]`, and a string
without the separator stays whole. -/
theorem C9_instruction_split :
    splitInstructions exInstr = ["Step1".toList, "Step2".toList] ∧
    (∀ s : List Char, occursIn (apos :: [',', ' ', apos]) s = false →
      splitInstructions s = [s]) ∧
    (∀ (r : PersistedMeal) (i : List Char) (m : MealRecord),
      r.instructions = some i → formatMeal r = some m →
      m.strInstructions = splitInstructions i) := by
  refine ⟨by decide, ?_, ?_⟩
  · intro s hs
    exact splitSep_no_sep s hs
  · intro r i m hi hm
    simp only [formatMeal, hi, Option.some.injEq] at hm
    rw [← hm]

/-- Witness for the amended C9 at concrete strings and a concrete row. -/
theorem C9_instruction_split_witness :
    (occursIn (apos :: [',', ' ', apos]) "abc".toList = false ∧
      splitInstructions "abc".toList = ["abc".toList]) ∧
    (row0.instructions = some [] ∧ formatMeal row0 = some rec0 ∧
      rec0.strInstructions = splitInstructions []) :=
  ⟨⟨by decide, C9_instruction_split.2.1 "abc".toList (by decide)⟩,
    ⟨rfl, by decide, C9_instruction_split.2.2 row0 [] rec0 rfl (by decide)⟩⟩

/-- C10: instructions and ingredients are handled asymmetrically on read —
an empty-string instructions field formats to the one-element step list
containing the empty string, a NULL instructions field makes row
formatting fail so the whole request yields the 500 outcome, while a
NULL or empty ingredients field just yields an empty ingredient list. -/
theorem C10_null_field_asymmetry :
    (∀ r : PersistedMeal, r.instructions = some [] →
      (formatMeal r).isSome = true) ∧
    (∀ (r : PersistedMeal) (m : MealRecord), r.instructions = some [] →
      formatMeal r = some m → m.strInstructions = [[]]) ∧
    (∀ r : PersistedMeal, r.instructions = none → formatMeal r = none) ∧
    (∀ (ext : ExtResult) (db : List PersistedMeal) (sel ssel : Nat → Nat)
      (q : List Char) (r : PersistedMeal), r ∈ localFetch db q →
      r.instructions = none →
      get_meal ext (some db) sel ssel q = .serverError) ∧
    (∀ (r : PersistedMeal) (m : MealRecord),
      (r.ingredients = none ∨ r.ingredients = some []) →
      formatMeal r = some m → m.strIngredients = []) := by
  refine ⟨?_, ?_, ?_, ?_, ?_⟩
  · intro r hi
    simp [formatMeal, hi]
  · intro r m hi hm
    simp only [formatMeal, hi, Option.some.injEq] at hm
    rw [← hm]
    rfl
  · intro r hi
    simp [formatMeal, hi]
  · intro ext db sel ssel q r hr hi
    have hnone : formatRows (localFetch db q) = none :=
      formatRows_none_of_mem hr (by simp [formatMeal, hi])
    unfold get_meal
    dsimp only
    rw [hnone]
  · intro r m hing hm
    cases hi : r.instructions with
    | none => simp [formatMeal, hi] at hm
    | some i =>
      rcases hing with h | h
      · simp only [formatMeal, hi, h, Option.some.injEq] at hm
        rw [← hm]
      · simp only [formatMeal, hi, h, Option.some.injEq] at hm
        rw [← hm]
        rfl

/-- A sample row with NULL instructions. -/
def rowNullInstr : PersistedMeal := ⟨4, [], [], [], none, some [], []⟩

/-- Witness for C10 at concrete rows. -/
theorem C10_null_field_asymmetry_witness :
    (row0.instructions = some [] ∧ (formatMeal row0).isSome = true) ∧
    (rowNullInstr.instructions = none ∧ formatMeal rowNullInstr = none) ∧
    (rowNullInstr ∈ localFetch [rowNullInstr] [] ∧
      get_meal .failure (some [rowNullInstr]) sel0 sel0 [] = .serverError) :=
  ⟨⟨rfl, C10_null_field_asymmetry.1 row0 rfl⟩,
    ⟨rfl, C10_null_field_asymmetry.2.2.1 rowNullInstr rfl⟩,
    ⟨by decide,
      C10_null_field_asymmetry.2.2.2.1 .failure [rowNullInstr] sel0 sel0 []
        rowNullInstr (by decide) rfl⟩⟩

end MealApi
